import Mathlib

/-!
Verification of the GDP-per-capita dashboard (`app.py`).

The file shallowly embeds the data-reshaping pipeline and the filtering
callback of the application:

* `LongRecord`, `WideTable`, `reshape` embed the wide→long reshaping done at
  startup (`df.transpose()` + `melt` + elementwise value parsing);
* `parseCell` embeds the value-parsing pipeline
  `replace({'k': '*1e3'}, regex=True).map(pd.eval).astype(int)`, with
  `pd.eval` modelled on the arithmetic-expression fragment it is actually fed
  (numeric literals with optional fraction and exponent, combined with `*`,
  under Python's leading-zero restriction on integer literals);
  exact decimal arithmetic stands in for floats;
* `update_figure` embeds the Dash callback that filters the long table by
  year range and by the selected countries (via Python's `list.copy` /
  `list.remove` exclusion-list idiom, whose failure is an exception, hence
  `Option`);
* `mark_years` embeds the derivation of the 25-year tick marks;
* `update_figure_heap` re-runs the callback over an explicit heap of list
  objects so that statements about mutation of the process-wide state
  (`df_pivot`, `all_countries`) are meaningful.
-/

/-- One row of the long-format table `df_pivot`: a (year, country, gdp)
triple.  Years and gdp values are integers after the `astype(int)`
coercions on lines 33 and 35 of `app.py`. -/
structure LongRecord where
  year : Int
  country : String
  gdp : Int
deriving DecidableEq, Repr

/-- Python's `list.remove(x)`: removes the first occurrence of `x`, raising
`ValueError` (modelled as `none`) when `x` is absent. -/
def pyRemove (xs : List String) (x : String) : Option (List String) :=
  if x ∈ xs then some (xs.erase x) else none

/-- The loop `for country in countries: countries_filter.remove(country)`
(lines 117–118 of `app.py`), threading the list being mutated. -/
def removeAll (cf : List String) : List String → Option (List String)
  | [] => some cf
  | c :: rest => (pyRemove cf c).bind fun cf2 => removeAll cf2 rest

/-- The loop `for country in countries_filter: filtered_df =
filtered_df[filtered_df['country'] != country]` (lines 120–121 of
`app.py`). -/
def excludeFilter (table : List LongRecord) (excl : List String) : List LongRecord :=
  excl.foldl (fun acc c => acc.filter (fun r => r.country ≠ c)) table

/-- The body of the `update_figure` callback (lines 108–121 of `app.py`), up
to the chart construction: year-range filtering followed by exclusion-list
country filtering.  `none` models the `ValueError` escaping from
`list.remove`. -/
def update_figure (dfPivot : List LongRecord) (all_countries : List String)
    (year_range : Int × Int) (countries : List String) : Option (List LongRecord) :=
  let filtered1 := dfPivot.filter (fun r => year_range.1 ≤ r.year)
  let filtered2 := filtered1.filter (fun r => r.year ≤ year_range.2)
  (removeAll all_countries countries).map fun countries_filter =>
    excludeFilter filtered2 countries_filter

/-- The specification's filter predicate: keep a record iff
`low ≤ year ≤ high` and its country is selected (spec §4.3).  Stated from
the spec's words, to be compared with `update_figure`. -/
def filterSpec (table : List LongRecord) (low high : Int) (sel : List String) :
    List LongRecord :=
  table.filter (fun r => decide (low ≤ r.year ∧ r.year ≤ high ∧ r.country ∈ sel))

/-- Exact decimal number `man * 10 ^ exp10`, the value domain of the
expression fragment fed to `pandas.eval` (decimal literals are closed under
multiplication and powers of ten; exact arithmetic stands in for floats). -/
structure DecNum where
  man : Int
  exp10 : Int
deriving DecidableEq, Repr

def DecNum.mul (a b : DecNum) : DecNum :=
  ⟨a.man * b.man, a.exp10 + b.exp10⟩

/-- Multiply by `10 ^ n` (the effect of an `e` exponent suffix). -/
def DecNum.scale (a : DecNum) (n : Int) : DecNum :=
  ⟨a.man, a.exp10 + n⟩

/-- `astype(int)`: C-style float-to-integer conversion truncates toward
zero. -/
def DecNum.toIntTrunc (a : DecNum) : Int :=
  if 0 ≤ a.exp10 then a.man * 10 ^ a.exp10.toNat
  else Int.tdiv a.man (10 ^ (-a.exp10).toNat)

/-- The substitution `replace({'k': '*1e3'}, regex=True)` (line 33 of
`app.py`): every occurrence of the character `k` anywhere in the string is
replaced by the text `*1e3`. -/
def replaceKChars (l : List Char) : List Char :=
  l.foldr (fun c acc => if c = 'k' then '*' :: '1' :: 'e' :: '3' :: acc else c :: acc) []

/-- The substitution applied to a whole cell string. -/
def replaceK (s : String) : String :=
  ⟨replaceKChars s.data⟩

/-- Numeric value of a digit string (most significant digit first). -/
def digitsVal (ds : List Char) : Nat :=
  ds.foldl (fun n c => 10 * n + (c.toNat - 48)) 0

/-- Optional exponent suffix of a numeric literal (`e3`, `e-2`, `e+5`), as
accepted by the expression evaluator behind `pandas.eval`. -/
def parseExpPart (v : DecNum) (cs : List Char) : Option (DecNum × List Char) :=
  match cs with
  | 'e' :: rest =>
      match rest with
      | '-' :: rest2 =>
          let ds := rest2.takeWhile Char.isDigit
          if ds.isEmpty then none
          else some (v.scale (-(digitsVal ds : Int)), rest2.dropWhile Char.isDigit)
      | '+' :: rest2 =>
          let ds := rest2.takeWhile Char.isDigit
          if ds.isEmpty then none
          else some (v.scale (digitsVal ds : Int), rest2.dropWhile Char.isDigit)
      | _ =>
          let ds := rest.takeWhile Char.isDigit
          if ds.isEmpty then none
          else some (v.scale (digitsVal ds : Int), rest.dropWhile Char.isDigit)
  | _ => some (v, cs)

/-- Python's decimal integer literal rule, enforced by the `ast` parser
behind `pandas.eval`: no leading zero unless the literal is a run of zeros
(`"0"`, `"00"` parse to 0; `"007"` raises SyntaxError).  Leading zeros are
allowed in float literals, where a fraction or exponent follows. -/
def validIntLit (ds : List Char) : Bool :=
  match ds with
  | [] => false
  | d :: rest => d != '0' || rest.all (· == '0')

/-- Numeric literal: digits, optional fraction, optional exponent.  A bare
digit run (an integer literal) must satisfy `validIntLit`; a fraction or an
exponent makes it a float literal, where leading zeros are legal. -/
def parseNumber (cs : List Char) : Option (DecNum × List Char) :=
  let ds := cs.takeWhile Char.isDigit
  let rest := cs.dropWhile Char.isDigit
  if ds.isEmpty then none
  else
    match rest with
    | '.' :: rest2 =>
        let fs := rest2.takeWhile Char.isDigit
        let rest3 := rest2.dropWhile Char.isDigit
        if fs.isEmpty then none
        else parseExpPart
          ⟨(digitsVal ds * 10 ^ fs.length + digitsVal fs : Nat), -(fs.length : Int)⟩ rest3
    | 'e' :: _ => parseExpPart ⟨(digitsVal ds : Nat), 0⟩ rest
    | _ =>
        if validIntLit ds then some (⟨(digitsVal ds : Nat), 0⟩, rest) else none

/-- Remaining factors of a product expression: zero or more `* literal`
continuations.  The fuel argument only bounds the recursion depth; each
step consumes at least the `*` character, so the string length is always
enough fuel. -/
def evalTail : Nat → DecNum → List Char → Option DecNum
  | _, acc, [] => some acc
  | 0, _, _ :: _ => none
  | fuel + 1, acc, c :: rest =>
      if c = '*' then
        match parseNumber rest with
        | some (v, rest2) => evalTail fuel (acc.mul v) rest2
        | none => none
      else none

/-- Model of `pandas.eval` on the expression fragment the pipeline feeds
it: products of numeric literals (a literal is digits with optional
fraction and optional exponent).  The real evaluator accepts a superset of
this grammar and agrees with it on the fragment. -/
def pdEval (s : String) : Option DecNum :=
  match parseNumber s.data with
  | some (v, rest) => evalTail s.data.length v rest
  | none => none

/-- The whole per-cell pipeline of line 33 of `app.py`:
`replace({'k': '*1e3'}, regex=True)`, then `pd.eval`, then `astype(int)`.
`none` models the exception escaping from `pd.eval` on an unparseable
string. -/
def parseCell (s : String) : Option Int :=
  (pdEval (replaceK s)).map DecNum.toIntTrunc

/-- The wide-format dataset `gdp_pcap.csv`: one row per country, one column
per year, cells as raw strings.  A common set of year columns for all rows
is built in (`cell` is total); unique country names are a hypothesis where
needed. -/
structure WideTable where
  countries : List String
  years : List Int
  cell : String → Int → String

/-- Elementwise fallible map, aborting on the first failure — the effect of
`map(pd.eval)` raising on a malformed cell. -/
def mapOpt (f : α → Option β) : List α → Option (List β)
  | [] => some []
  | a :: as => (f a).bind fun b => (mapOpt f as).map fun bs => b :: bs

/-- Concatenation of blocks, as `melt` stacks one block per value column. -/
def concatAll : List (List α) → List α
  | [] => []
  | l :: ls => l ++ concatAll ls

/-- The block of long records contributed by one country column of the
transposed frame: one record per year, in row (year) order. -/
def reshapeRow (w : WideTable) (c : String) : Option (List LongRecord) :=
  mapOpt (fun y => (parseCell (w.cell c y)).map fun g => LongRecord.mk y c g) w.years

/-- The reshaping pipeline of lines 17–35 of `app.py`: `melt` stacks the
blocks of the value columns in `all_countries` order (countries outer,
years inner), and the gdp column is parsed elementwise; a malformed cell
aborts the load. -/
def reshape (w : WideTable) : Option (List LongRecord) :=
  (mapOpt (reshapeRow w) w.countries).map concatAll

/-- The long record at a (country, year) cell, with the parsed gdp value
(defaulting on a malformed cell; used only where parsing succeeded). -/
def recOf (w : WideTable) (c : String) (y : Int) : LongRecord :=
  ⟨y, c, (parseCell (w.cell c y)).getD 0⟩

/-- The fully-evaluated shape of a successful reshape. -/
def reshapeSpec (w : WideTable) : List LongRecord :=
  concatAll (w.countries.map (fun c => w.years.map (recOf w c)))

/-- A contiguous block of chart data: all records of one country, years
strictly ascending. -/
def IsCountryBlock (c : String) (b : List LongRecord) : Prop :=
  (∀ r ∈ b, r.country = c) ∧ b.Pairwise (fun x y => x.year < y.year)

/-- The ordering the Chart Renderer needs: the list splits into contiguous
one-country blocks with pairwise-distinct countries (so all records of a
country are contiguous), years ascending inside each block. -/
def GroupedByCountrySorted (l : List LongRecord) : Prop :=
  ∃ cs : List String, ∃ bs : List (List LongRecord),
    cs.Nodup ∧ List.Forall₂ IsCountryBlock cs bs ∧ l = concatAll bs

/-- Line 40 of `app.py`: `mark_years = unique_years[unique_years % 25 == 0]`
— the dataset years divisible by 25, in order. -/
def mark_years (unique_years : List Int) : List Int :=
  unique_years.filter (fun y => y % 25 == 0)

/-- The dataset's year domain when it is the full integer interval
`[low, high]` (the Gapminder dataset has one column per consecutive
year). -/
def intRange (low high : Int) : List Int :=
  (List.range (high - low + 1).toNat).map (fun i : Nat => low + (i : Int))

/-- The process-wide heap of Python objects the callback can reach: the
list objects (`all_countries` and any copies) and the data frames
(`df_pivot` and the frames derived from it).  References are indices. -/
structure PyHeap where
  strLists : List (List String)
  frames : List (List LongRecord)
deriving DecidableEq, Repr

/-- The removal loop of lines 117–118 acting on the heap: each
`countries_filter.remove(country)` call mutates the list object at `r` in
place. -/
def removeLoopHeap (r : Nat) : PyHeap → List String → Option PyHeap
  | h, [] => some h
  | h, c :: rest =>
      (pyRemove (h.strLists.getD r []) c).bind fun l =>
        removeLoopHeap r { h with strLists := h.strLists.set r l } rest

/-- The `update_figure` callback acting on the heap: boolean-mask filters
build fresh frames, `countries_filter = all_countries.copy()` (line 114)
allocates a fresh list object, and the removal loop mutates only that
fresh object. -/
def update_figure_heap (h : PyHeap) (dfRef allRef : Nat) (year_range : Int × Int)
    (countries : List String) : Option (PyHeap × List LongRecord) :=
  let dfPivot := h.frames.getD dfRef []
  let filtered1 := dfPivot.filter (fun r => year_range.1 ≤ r.year)
  let filtered2 := filtered1.filter (fun r => r.year ≤ year_range.2)
  let cfRef := h.strLists.length
  let h1 : PyHeap := { h with strLists := h.strLists ++ [h.strLists.getD allRef []] }
  (removeLoopHeap cfRef h1 countries).map fun h2 =>
    (h2, excludeFilter filtered2 (h2.strLists.getD cfRef []))

/-- Successful removal of a nodup batch of present elements: the surviving
elements are exactly those not removed. -/
theorem removeAll_spec (sel : List String) :
    ∀ cf : List String, sel.Nodup → cf.Nodup → (∀ c ∈ sel, c ∈ cf) →
      ∃ excl, removeAll cf sel = some excl ∧ excl.Nodup ∧
        (∀ a, a ∈ excl ↔ a ∈ cf ∧ a ∉ sel) := by
  induction sel with
  | nil =>
      intro cf _ hcf _
      exact ⟨cf, rfl, hcf, fun a => by simp⟩
  | cons c rest ih =>
      intro cf hsel hcf hsub
      have hc : c ∈ cf := hsub c (List.mem_cons_self c rest)
      have hrest_nodup : rest.Nodup := (List.nodup_cons.mp hsel).2
      have hc_notin : c ∉ rest := (List.nodup_cons.mp hsel).1
      have herase_nodup : (cf.erase c).Nodup := hcf.erase c
      have hsub' : ∀ d ∈ rest, d ∈ cf.erase c := by
        intro d hd
        have hne : d ≠ c := fun h => hc_notin (h ▸ hd)
        exact (List.mem_erase_of_ne hne).mpr (hsub d (List.mem_cons_of_mem c hd))
      obtain ⟨excl, hrun, hnodup, hmem⟩ := ih (cf.erase c) hrest_nodup herase_nodup hsub'
      refine ⟨excl, ?_, hnodup, ?_⟩
      · simp [removeAll, pyRemove, hc, hrun]
      · intro a
        rw [hmem a, hcf.mem_erase_iff]
        constructor
        · rintro ⟨⟨hne, ha⟩, hnr⟩
          exact ⟨ha, by simp [hne, hnr]⟩
        · rintro ⟨ha, hns⟩
          simp only [List.mem_cons, not_or] at hns
          exact ⟨⟨hns.1, ha⟩, hns.2⟩

/-- The removal loop fails exactly when some requested element is absent
(for a nodup batch). -/
theorem removeAll_eq_none_iff (sel : List String) :
    ∀ cf : List String, sel.Nodup →
      (removeAll cf sel = none ↔ ∃ c ∈ sel, c ∉ cf) := by
  induction sel with
  | nil => intro cf _; simp [removeAll]
  | cons c rest ih =>
      intro cf hsel
      have hrest_nodup : rest.Nodup := (List.nodup_cons.mp hsel).2
      have hc_notin : c ∉ rest := (List.nodup_cons.mp hsel).1
      by_cases hc : c ∈ cf
      · rw [show removeAll cf (c :: rest) = removeAll (cf.erase c) rest by
            simp [removeAll, pyRemove, hc]]
        rw [ih (cf.erase c) hrest_nodup]
        constructor
        · rintro ⟨d, hd, hnd⟩
          have hne : d ≠ c := fun h => hc_notin (h ▸ hd)
          refine ⟨d, List.mem_cons_of_mem c hd, fun hdc => hnd ?_⟩
          exact (List.mem_erase_of_ne hne).mpr hdc
        · rintro ⟨d, hd, hnd⟩
          rcases List.mem_cons.mp hd with h | h
          · exact absurd (h ▸ hc) hnd
          · refine ⟨d, h, fun hmem => hnd ?_⟩
            exact List.mem_of_mem_erase hmem
      · constructor
        · intro _; exact ⟨c, List.mem_cons_self c rest, hc⟩
        · intro _; simp [removeAll, pyRemove, hc]

/-- A fold of country-exclusion filters is one filter by non-membership. -/
theorem excludeFilter_eq (excl : List String) :
    ∀ table : List LongRecord,
      excludeFilter table excl = table.filter (fun r => decide (r.country ∉ excl)) := by
  induction excl with
  | nil =>
      intro table
      simp [excludeFilter]
  | cons c cs ih =>
      intro table
      show excludeFilter (table.filter fun r => r.country ≠ c) cs = _
      rw [ih, List.filter_filter]
      apply List.filter_congr
      intro r _
      by_cases h1 : r.country = c <;> by_cases h2 : r.country ∈ cs <;>
        simp [h1, h2]

theorem excludeFilter_nil (excl : List String) : excludeFilter [] excl = [] := by
  rw [excludeFilter_eq]; rfl

/-- Core characterisation of the callback: on a valid Selection (selected
countries a nodup subset of the nodup country universe, every record's
country in the universe) the exclusion-list implementation computes exactly
the spec's inclusion filter. -/
theorem update_figure_eq (table : List LongRecord) (all_countries : List String)
    (low high : Int) (sel : List String)
    (hsel : sel.Nodup) (hall : all_countries.Nodup)
    (hsub : ∀ c ∈ sel, c ∈ all_countries)
    (htab : ∀ r ∈ table, r.country ∈ all_countries) :
    update_figure table all_countries (low, high) sel =
      some (filterSpec table low high sel) := by
  obtain ⟨excl, hrun, _, hmem⟩ := removeAll_spec sel all_countries hsel hall hsub
  unfold update_figure
  rw [hrun]
  simp only [Option.map_some']
  congr 1
  rw [excludeFilter_eq, List.filter_filter, List.filter_filter, filterSpec]
  apply List.filter_congr
  intro r hr
  have hrc : r.country ∈ all_countries := htab r hr
  have : r.country ∉ excl ↔ r.country ∈ sel := by
    rw [hmem r.country]
    constructor
    · intro h
      by_contra hns
      exact h ⟨hrc, hns⟩
    · rintro hs ⟨_, hns⟩
      exact hns hs
  by_cases hy1 : low ≤ r.year <;> by_cases hy2 : r.year ≤ high <;>
    by_cases hcs : r.country ∈ sel <;>
      simp [hy1, hy2, hcs, this]

/-- Claim C1: for every long-format table and every Selection with
selectedCountries a subset of CountrySet and `yearRange.low ≤
yearRange.high`, the filter operation returns exactly those records `r` of
the table with `low ≤ r.year ≤ high` and `r.country` a member of the
selected countries, and no others. -/
theorem claim_C1 (table : List LongRecord) (all_countries : List String)
    (low high : Int) (sel : List String)
    (_hrange : low ≤ high)
    (hsel : sel.Nodup) (hall : all_countries.Nodup)
    (hsub : ∀ c ∈ sel, c ∈ all_countries)
    (htab : ∀ r ∈ table, r.country ∈ all_countries) :
    update_figure table all_countries (low, high) sel =
      some (filterSpec table low high sel) :=
  update_figure_eq table all_countries low high sel hsel hall hsub htab

/-- Witness for C1 at a concrete table and Selection. -/
theorem claim_C1_witness :
    update_figure
        [⟨1800, "USA", 500⟩, ⟨1825, "France", 600⟩, ⟨1850, "USA", 700⟩]
        ["USA", "France"] (1800, 1825) ["USA"] =
      some [⟨1800, "USA", 500⟩] :=
  (claim_C1 [⟨1800, "USA", 500⟩, ⟨1825, "France", 600⟩, ⟨1850, "USA", 700⟩]
      ["USA", "France"] 1800 1825 ["USA"]
      (by decide) (by decide) (by decide) (by decide) (by decide)).trans
    (by decide)

/-- Claim C6: exclusion-based filtering (dropping the records whose country
survived the removal of the selected countries from a copy of
`all_countries`) returns exactly the same records as direct inclusion
filtering by the selected countries. -/
theorem claim_C6 (table : List LongRecord) (all_countries sel excl : List String)
    (hsel : sel.Nodup) (hall : all_countries.Nodup)
    (hsub : ∀ c ∈ sel, c ∈ all_countries)
    (htab : ∀ r ∈ table, r.country ∈ all_countries)
    (hrun : removeAll all_countries sel = some excl) :
    excludeFilter table excl = table.filter (fun r => decide (r.country ∈ sel)) := by
  obtain ⟨excl2, hrun2, _, hmem⟩ := removeAll_spec sel all_countries hsel hall hsub
  rw [hrun2] at hrun
  injection hrun with h
  subst h
  rw [excludeFilter_eq]
  apply List.filter_congr
  intro r hr
  have hrc : r.country ∈ all_countries := htab r hr
  by_cases hcs : r.country ∈ sel
  · have : r.country ∉ excl2 := fun hx => ((hmem r.country).mp hx).2 hcs
    simp [hcs, this]
  · have : r.country ∈ excl2 := (hmem r.country).mpr ⟨hrc, hcs⟩
    simp [hcs, this]

/-- Witness for C6 at a concrete table and Selection. -/
theorem claim_C6_witness :
    excludeFilter [⟨1800, "USA", 500⟩, ⟨1800, "France", 600⟩] ["France"] =
      List.filter (fun r => decide (r.country ∈ ["USA"]))
        [⟨1800, "USA", 500⟩, ⟨1800, "France", 600⟩] :=
  claim_C6 [⟨1800, "USA", 500⟩, ⟨1800, "France", 600⟩] ["USA", "France"] ["USA"]
    ["France"] (by decide) (by decide) (by decide) (by decide) (by decide)

/-- Claim C7: filtering is monotone in the Selection: widening the year
range and enlarging the selected-country set never loses a record. -/
theorem claim_C7 (table : List LongRecord) (all_countries : List String)
    (low1 high1 low2 high2 : Int) (sel1 sel2 : List String)
    (hsel1 : sel1.Nodup) (hsel2 : sel2.Nodup) (hall : all_countries.Nodup)
    (hsub1 : ∀ c ∈ sel1, c ∈ all_countries) (hsub2 : ∀ c ∈ sel2, c ∈ all_countries)
    (htab : ∀ r ∈ table, r.country ∈ all_countries)
    (hlow : low2 ≤ low1) (hhigh : high1 ≤ high2)
    (hsels : ∀ c ∈ sel1, c ∈ sel2)
    (res1 res2 : List LongRecord)
    (h1 : update_figure table all_countries (low1, high1) sel1 = some res1)
    (h2 : update_figure table all_countries (low2, high2) sel2 = some res2) :
    ∀ r ∈ res1, r ∈ res2 := by
  rw [update_figure_eq table all_countries low1 high1 sel1 hsel1 hall hsub1 htab] at h1
  rw [update_figure_eq table all_countries low2 high2 sel2 hsel2 hall hsub2 htab] at h2
  injection h1 with h1
  injection h2 with h2
  subst h1
  subst h2
  intro r hr
  rw [filterSpec, List.mem_filter, decide_eq_true_eq] at hr ⊢
  obtain ⟨hrt, hy1, hy2, hc⟩ := hr
  exact ⟨hrt, le_trans hlow hy1, le_trans hy2 hhigh, hsels r.country hc⟩

/-- Witness for C7 at a concrete pair of nested Selections. -/
theorem claim_C7_witness :
    LongRecord.mk 1825 "USA" 500 ∈
      [LongRecord.mk 1825 "USA" 500, LongRecord.mk 1825 "France" 600] :=
  claim_C7 [⟨1825, "USA", 500⟩, ⟨1825, "France", 600⟩] ["USA", "France"]
    1820 1830 1800 1850 ["USA"] ["USA", "France"]
    (by decide) (by decide) (by decide) (by decide) (by decide) (by decide)
    (by decide) (by decide) (by decide)
    [⟨1825, "USA", 500⟩] [⟨1825, "USA", 500⟩, ⟨1825, "France", 600⟩]
    (by decide) (by decide) (LongRecord.mk 1825 "USA" 500) (by decide)

/-- Counterexample to claim C4: with crossed bounds (low = 1900 > high =
1890) the callback does not fail with any error — it succeeds and returns
the empty record list.  No `InvalidRange` check exists in the filter step. -/
theorem claim_C4_counterexample :
    update_figure [⟨1890, "USA", 100⟩, ⟨1900, "USA", 200⟩] ["USA"]
      (1900, 1890) ["USA"] = some [] := by decide

/-- Claim C4 as amended: with `low > high` the callback performs no
validation and raises no error; it returns the empty result, because no
record satisfies both year bounds.  Non-crossing of the bounds is enforced
only by the UI control (`allowCross=False`). -/
theorem claim_C4_amended (table : List LongRecord) (all_countries sel : List String)
    (low high : Int) (hcross : high < low)
    (hsel : sel.Nodup) (hsub : ∀ c ∈ sel, c ∈ all_countries) :
    update_figure table all_countries (low, high) sel = some [] := by
  have hne : removeAll all_countries sel ≠ none := by
    rw [Ne, removeAll_eq_none_iff sel all_countries hsel]
    push_neg
    exact hsub
  obtain ⟨excl, hexcl⟩ := Option.ne_none_iff_exists'.mp hne
  unfold update_figure
  rw [hexcl, Option.map_some']
  have hempty :
      (table.filter (fun r => decide (low ≤ r.year))).filter
        (fun r => decide (r.year ≤ high)) = [] := by
    rw [List.filter_filter, List.filter_eq_nil_iff]
    intro r _
    simp only [Bool.and_eq_true, decide_eq_true_eq, not_and]
    intro h1 h2
    exact absurd (le_trans h2 h1) (not_le.mpr hcross)
  rw [hempty, excludeFilter_nil]

/-- Witness for the amended C4 at a concrete crossed range. -/
theorem claim_C4_amended_witness :
    update_figure [⟨1890, "France", 100⟩] ["France"] (1900, 1890) ["France"] =
      some [] :=
  claim_C4_amended [⟨1890, "France", 100⟩] ["France"] ["France"] 1900 1890
    (by decide) (by decide) (by decide)

/-- Claim C5: updating the selected countries fails iff some supplied name
is not in the country universe, and the empty selection is accepted and
yields the empty result rather than an error. -/
theorem claim_C5 :
    (∀ (table : List LongRecord) (all_countries : List String) (low high : Int)
        (sel : List String), sel.Nodup →
        (update_figure table all_countries (low, high) sel = none ↔
          ∃ c ∈ sel, c ∉ all_countries)) ∧
    (∀ (table : List LongRecord) (all_countries : List String) (low high : Int),
        (∀ r ∈ table, r.country ∈ all_countries) →
        update_figure table all_countries (low, high) [] = some []) := by
  constructor
  · intro table allc low high sel hsel
    unfold update_figure
    rw [Option.map_eq_none']
    exact removeAll_eq_none_iff sel allc hsel
  · intro table allc low high htab
    unfold update_figure
    show (removeAll allc []).map _ = some []
    simp only [removeAll, Option.map_some']
    rw [excludeFilter_eq, List.filter_filter, List.filter_filter,
      Option.some_inj, List.filter_eq_nil_iff]
    intro r hr
    simp [htab r hr]

/-- Witness for C5: `{"Atlantis"}` is rejected (the callback fails), while
the empty selection succeeds with the empty result. -/
theorem claim_C5_witness :
    (update_figure [] ["USA"] (1800, 1900) ["Atlantis"] = none ↔
      ∃ c ∈ ["Atlantis"], c ∉ ["USA"]) ∧
    update_figure [⟨1800, "USA", 5⟩] ["USA"] (1800, 1900) [] = some [] :=
  ⟨claim_C5.1 [] ["USA"] 1800 1900 ["Atlantis"] (by decide),
   claim_C5.2 [⟨1800, "USA", 5⟩] ["USA"] 1800 1900 (by decide)⟩

theorem replaceKChars_append (l m : List Char) :
    replaceKChars (l ++ m) = replaceKChars l ++ replaceKChars m := by
  induction l with
  | nil => rfl
  | cons c l ih =>
      by_cases h : c = 'k' <;> simp [replaceKChars, List.foldr_cons, h] at ih ⊢ <;>
        exact ih

theorem replaceKChars_no_k (l : List Char) (h : ∀ c ∈ l, c ≠ 'k') :
    replaceKChars l = l := by
  induction l with
  | nil => rfl
  | cons c l ih =>
      have hc : c ≠ 'k' := h c (List.mem_cons_self c l)
      simp only [replaceKChars, List.foldr_cons, if_neg hc]
      exact congrArg (c :: ·) (ih fun d hd => h d (List.mem_cons_of_mem c hd))

/-- `takeWhile`/`dropWhile` split a run of digits off the front. -/
theorem takeWhile_digits_append (ds t : List Char)
    (hd : ∀ c ∈ ds, c.isDigit = true)
    (ht : ∀ c, t.head? = some c → c.isDigit = false) :
    (ds ++ t).takeWhile Char.isDigit = ds ∧ (ds ++ t).dropWhile Char.isDigit = t := by
  induction ds with
  | nil =>
      cases t with
      | nil => simp
      | cons c t2 =>
          have hc := ht c rfl
          simp [List.takeWhile_cons, List.dropWhile_cons, hc]
  | cons d ds ih =>
      have hdd : d.isDigit = true := hd d (List.mem_cons_self d ds)
      obtain ⟨h1, h2⟩ := ih (fun c hc => hd c (List.mem_cons_of_mem d hc))
      simp [List.takeWhile_cons, List.dropWhile_cons, hdd, h1, h2]

theorem evalTail_nil (fuel : Nat) (acc : DecNum) : evalTail fuel acc [] = some acc := by
  cases fuel <;> rfl

theorem digit_ne_k {c : Char} (h : c.isDigit = true) : c ≠ 'k' := by
  intro he
  subst he
  exact absurd h (by decide)

theorem evalTail_times_1e3 (fuel : Nat) (acc : DecNum) :
    evalTail (fuel + 1) acc ['*', '1', 'e', '3'] = some (acc.mul ⟨1, 3⟩) := by
  show evalTail fuel (acc.mul ⟨1, 3⟩) [] = some (acc.mul ⟨1, 3⟩)
  exact evalTail_nil fuel _

/-- A nonempty all-digit cell that is a valid Python integer literal (no
leading zero, or all zeros) parses to its integer value. -/
theorem parseCell_digits (d : Char) (ds : List Char)
    (hd : ∀ c ∈ d :: ds, c.isDigit = true)
    (hlz : validIntLit (d :: ds) = true) :
    parseCell ⟨d :: ds⟩ = some ((digitsVal (d :: ds) : Int)) := by
  have hrep : replaceKChars (d :: ds) = d :: ds :=
    replaceKChars_no_k _ (fun c hc => digit_ne_k (hd c hc))
  obtain ⟨htw, hdw⟩ := takeWhile_digits_append (d :: ds) [] hd (fun c hc => by cases hc)
  rw [List.append_nil] at htw hdw
  show (pdEval ⟨replaceKChars (d :: ds)⟩).map DecNum.toIntTrunc = _
  rw [hrep]
  show (match parseNumber (d :: ds) with
    | some (v, rest) => evalTail (d :: ds).length v rest
    | none => none).map DecNum.toIntTrunc = _
  rw [show parseNumber (d :: ds) = some (⟨(digitsVal (d :: ds) : Nat), 0⟩, []) by
    unfold parseNumber
    rw [htw, hdw]
    simp [hlz]]
  show (evalTail (d :: ds).length ⟨(digitsVal (d :: ds) : Nat), 0⟩ []).map DecNum.toIntTrunc = _
  rw [evalTail_nil]
  show some (DecNum.toIntTrunc ⟨(digitsVal (d :: ds) : Nat), 0⟩) = _
  unfold DecNum.toIntTrunc
  norm_num

/-- A nonempty all-digit cell that is a valid Python integer literal,
followed by the `k` suffix, parses to a thousand times its integer
value. -/
theorem parseCell_digits_k (d : Char) (ds : List Char)
    (hd : ∀ c ∈ d :: ds, c.isDigit = true)
    (hlz : validIntLit (d :: ds) = true) :
    parseCell ⟨(d :: ds) ++ ['k']⟩ = some ((digitsVal (d :: ds) : Int) * 1000) := by
  have hrep : replaceKChars ((d :: ds) ++ ['k']) = (d :: ds) ++ ['*', '1', 'e', '3'] := by
    rw [replaceKChars_append, replaceKChars_no_k _ (fun c hc => digit_ne_k (hd c hc))]
    rfl
  obtain ⟨htw, hdw⟩ := takeWhile_digits_append (d :: ds) ['*', '1', 'e', '3'] hd
    (fun c hc => by rw [show c = '*' from (Option.some_inj.mp hc).symm]; decide)
  show (pdEval ⟨replaceKChars ((d :: ds) ++ ['k'])⟩).map DecNum.toIntTrunc = _
  rw [hrep]
  show (match parseNumber ((d :: ds) ++ ['*', '1', 'e', '3']) with
    | some (v, rest) => evalTail ((d :: ds) ++ ['*', '1', 'e', '3']).length v rest
    | none => none).map DecNum.toIntTrunc = _
  rw [show parseNumber ((d :: ds) ++ ['*', '1', 'e', '3']) =
      some (⟨(digitsVal (d :: ds) : Nat), 0⟩, ['*', '1', 'e', '3']) by
    unfold parseNumber
    rw [htw, hdw]
    simp [hlz]]
  show (evalTail ((ds ++ ['*', '1', 'e', '3']).length + 1) ⟨(digitsVal (d :: ds) : Nat), 0⟩
      ['*', '1', 'e', '3']).map DecNum.toIntTrunc = _
  rw [evalTail_times_1e3]
  show some (DecNum.toIntTrunc (DecNum.mul ⟨(digitsVal (d :: ds) : Nat), 0⟩ ⟨1, 3⟩)) = _
  unfold DecNum.mul DecNum.toIntTrunc
  norm_num
  exact Or.inl (by decide)

/-- Counterexample to claim C3: `"0k0"` is neither a plain integer nor a
number followed by a trailing `k`, yet the parser does not fail: the
textual substitution turns it into `0*1e30`, which evaluates to `0`. -/
theorem claim_C3_counterexample : parseCell "0k0" = some 0 := by decide

/-- Claim C3 as amended: the parser maps a plain-integer string that is a
valid Python integer literal (no leading zero, or all zeros) to that
integer and such a string followed by `k` to that number times 1000
(`"5k"` → 5000, `"12.5k"` → 12500, `"300"` → 300, `"5.2k"` → 5200), and
fails on `"abc"`; it also fails on integer literals with a leading zero
(`"007"`, `"007k"`), which the Python parser behind `pandas.eval` rejects;
and it does not fail on every string of neither form, because the `k`
substitution is textual rather than a suffix check: `"0k0"` evaluates to 0
instead of failing. -/
theorem claim_C3 :
    (∀ (d : Char) (ds : List Char), (∀ c ∈ d :: ds, c.isDigit = true) →
      validIntLit (d :: ds) = true →
      parseCell ⟨d :: ds⟩ = some ((digitsVal (d :: ds) : Int))) ∧
    (∀ (d : Char) (ds : List Char), (∀ c ∈ d :: ds, c.isDigit = true) →
      validIntLit (d :: ds) = true →
      parseCell ⟨(d :: ds) ++ ['k']⟩ = some ((digitsVal (d :: ds) : Int) * 1000)) ∧
    parseCell "5k" = some 5000 ∧ parseCell "12.5k" = some 12500 ∧
    parseCell "300" = some 300 ∧ parseCell "5.2k" = some 5200 ∧
    parseCell "abc" = none ∧ parseCell "007" = none ∧
    parseCell "007k" = none ∧ parseCell "0k0" = some 0 :=
  ⟨parseCell_digits, parseCell_digits_k, by decide, by decide, by decide,
   by decide, by decide, by decide, by decide, by decide⟩

/-- Witness for the amended C3: the two universal clauses instantiated at
`"300"` and `"5k"`. -/
theorem claim_C3_witness :
    parseCell ⟨['3', '0', '0']⟩ = some ((digitsVal ['3', '0', '0'] : Int)) ∧
    parseCell ⟨['5'] ++ ['k']⟩ = some ((digitsVal ['5'] : Int) * 1000) :=
  ⟨claim_C3.1 '3' ['0', '0'] (by decide) (by decide),
   claim_C3.2.1 '5' [] (by decide) (by decide)⟩

theorem mapOpt_some_forall2 {f : α → Option β} :
    ∀ {xs : List α} {ys : List β}, mapOpt f xs = some ys →
      List.Forall₂ (fun x y => f x = some y) xs ys := by
  intro xs
  induction xs with
  | nil =>
      intro ys h
      rw [show ys = [] from (Option.some_inj.mp h.symm)]
      exact List.Forall₂.nil
  | cons a as ih =>
      intro ys h
      unfold mapOpt at h
      cases hfa : f a with
      | none => rw [hfa] at h; simp at h
      | some b =>
          rw [hfa] at h
          cases hrest : mapOpt f as with
          | none => rw [hrest] at h; simp at h
          | some bs =>
              rw [hrest] at h
              simp only [Option.some_bind, Option.map_some'] at h
              rw [← Option.some_inj.mp h]
              exact List.Forall₂.cons hfa (ih hrest)

theorem mem_concatAll {a : α} :
    ∀ {ls : List (List α)}, a ∈ concatAll ls ↔ ∃ l ∈ ls, a ∈ l := by
  intro ls
  induction ls with
  | nil => simp [concatAll]
  | cons l ls ih => simp [concatAll, List.mem_append, ih]

theorem filter_concatAll (p : α → Bool) :
    ∀ ls : List (List α), (concatAll ls).filter p = concatAll (ls.map (List.filter p)) := by
  intro ls
  induction ls with
  | nil => rfl
  | cons l ls ih => simp [concatAll, List.filter_append, ih]

theorem map_concatAll (f : α → β) :
    ∀ ls : List (List α), (concatAll ls).map f = concatAll (ls.map (List.map f)) := by
  intro ls
  induction ls with
  | nil => rfl
  | cons l ls ih => simp [concatAll, List.map_append, ih]

theorem forall2_parse_rows {w : WideTable} {c : String} :
    ∀ {ys : List Int} {rs : List LongRecord},
      List.Forall₂
        (fun y r => (parseCell (w.cell c y)).map (fun g => LongRecord.mk y c g) = some r)
        ys rs →
      rs = ys.map (recOf w c) ∧ ∀ y ∈ ys, (parseCell (w.cell c y)).isSome := by
  intro ys rs h
  induction h with
  | nil => exact ⟨rfl, by simp⟩
  | @cons y r ys2 rs2 hyr _ ih =>
      cases hp : parseCell (w.cell c y) with
      | none => rw [hp] at hyr; simp at hyr
      | some g =>
          rw [hp] at hyr
          simp only [Option.map_some'] at hyr
          obtain ⟨ih1, ih2⟩ := ih
          constructor
          · rw [List.map_cons, ← Option.some_inj.mp hyr, ih1]
            rw [show recOf w c y = LongRecord.mk y c g by
              unfold recOf
              rw [hp]
              rfl]
          · intro y2 hy2
            rcases List.mem_cons.mp hy2 with he | hm
            · rw [he, hp]; rfl
            · exact ih2 y2 hm

theorem reshapeRow_eq {w : WideTable} {c : String} {row : List LongRecord}
    (h : reshapeRow w c = some row) :
    row = w.years.map (recOf w c) ∧ ∀ y ∈ w.years, (parseCell (w.cell c y)).isSome :=
  forall2_parse_rows (mapOpt_some_forall2 h)

theorem forall2_reshape_rows {w : WideTable} :
    ∀ {cs : List String} {rs : List (List LongRecord)},
      List.Forall₂ (fun c row => reshapeRow w c = some row) cs rs →
      concatAll rs = concatAll (cs.map fun c => w.years.map (recOf w c)) ∧
        ∀ c ∈ cs, ∀ y ∈ w.years, (parseCell (w.cell c y)).isSome := by
  intro cs rs h
  induction h with
  | nil => exact ⟨rfl, by simp⟩
  | @cons c row cs2 rs2 hcr _ ih =>
      obtain ⟨hrow, hcells⟩ := reshapeRow_eq hcr
      obtain ⟨ih1, ih2⟩ := ih
      constructor
      · show row ++ concatAll rs2 = concatAll ((c :: cs2).map fun c2 => w.years.map (recOf w c2))
        rw [List.map_cons]
        show row ++ concatAll rs2 =
          w.years.map (recOf w c) ++ concatAll (cs2.map fun c2 => w.years.map (recOf w c2))
        rw [hrow, ih1]
      · intro c2 hc2
        rcases List.mem_cons.mp hc2 with he | hm
        · exact he ▸ hcells
        · exact ih2 c2 hm

theorem reshape_eq {w : WideTable} {out : List LongRecord}
    (h : reshape w = some out) :
    out = reshapeSpec w ∧
      ∀ c ∈ w.countries, ∀ y ∈ w.years, (parseCell (w.cell c y)).isSome := by
  unfold reshape at h
  cases hrows : mapOpt (reshapeRow w) w.countries with
  | none => rw [hrows] at h; simp at h
  | some rows =>
      rw [hrows] at h
      simp only [Option.map_some'] at h
      obtain ⟨h1, h2⟩ := forall2_reshape_rows (mapOpt_some_forall2 hrows)
      exact ⟨by rw [← Option.some_inj.mp h, h1]; rfl, h2⟩

theorem reshapeSpec_length (w : WideTable) :
    (reshapeSpec w).length = w.countries.length * w.years.length := by
  unfold reshapeSpec
  induction w.countries with
  | nil => simp [concatAll]
  | cons c cs ih =>
      show (w.years.map (recOf w c) ++ concatAll (cs.map fun c2 => w.years.map (recOf w c2))).length = _
      rw [List.length_append, List.length_map, ih]
      show w.years.length + cs.length * w.years.length = (cs.length + 1) * w.years.length
      ring

theorem nodup_concatAll_pairs (ys : List Int) (hy : ys.Nodup) :
    ∀ cs : List String, cs.Nodup →
      (concatAll (cs.map (fun c => ys.map (fun y => (c, y))))).Nodup := by
  intro cs
  induction cs with
  | nil => intro _; exact List.nodup_nil
  | cons c cs ih =>
      intro hcs
      obtain ⟨hnc, hcs2⟩ := List.nodup_cons.mp hcs
      show (ys.map (fun y => (c, y)) ++ concatAll (cs.map fun c2 => ys.map (fun y => (c2, y)))).Nodup
      rw [List.nodup_append]
      refine ⟨hy.map ?_, ih hcs2, ?_⟩
      · intro a b hab
        exact (Prod.ext_iff.mp hab).2
      · intro p hp1 hp2
        obtain ⟨y, _, hpy⟩ := List.mem_map.mp hp1
        obtain ⟨blk, hblk, hpb⟩ := mem_concatAll.mp hp2
        obtain ⟨c2, hc2, hcblk⟩ := List.mem_map.mp hblk
        rw [← hcblk] at hpb
        obtain ⟨y2, _, hpy2⟩ := List.mem_map.mp hpb
        have h1 : p.1 = c := by rw [← hpy]
        have h2 : p.1 = c2 := by rw [← hpy2]
        exact hnc (by rw [← h1.symm.trans h2] at hc2; exact hc2)

theorem reshapeSpec_pairs_nodup (w : WideTable)
    (hc : w.countries.Nodup) (hy : w.years.Nodup) :
    ((reshapeSpec w).map (fun r => (r.country, r.year))).Nodup := by
  unfold reshapeSpec
  rw [map_concatAll, List.map_map]
  have hcomp :
      (List.map (fun r : LongRecord => (r.country, r.year)) ∘ fun c => w.years.map (recOf w c)) =
        fun c => w.years.map (fun y => (c, y)) := by
    funext c
    show (w.years.map (recOf w c)).map (fun r : LongRecord => (r.country, r.year)) = _
    rw [List.map_map]
    rfl
  rw [hcomp]
  exact nodup_concatAll_pairs w.years hy w.countries hc

theorem countP_key_eq_one {c : String} {y : Int} :
    ∀ {l : List LongRecord},
      (l.map (fun r => (r.country, r.year))).Nodup →
      (c, y) ∈ l.map (fun r => (r.country, r.year)) →
      l.countP (fun r => r.country == c && r.year == y) = 1 := by
  intro l
  induction l with
  | nil => intro _ hm; simp at hm
  | cons r t ih =>
      intro hn hm
      simp only [List.map_cons] at hn hm
      obtain ⟨hnr, hnt⟩ := List.nodup_cons.mp hn
      rcases List.mem_cons.mp hm with he | hmem
      · have hr1 : r.country = c := (Prod.ext_iff.mp he.symm).1
        have hr2 : r.year = y := (Prod.ext_iff.mp he.symm).2
        rw [List.countP_cons_of_pos _ _ (by simp [hr1, hr2])]
        have ht0 : t.countP (fun r2 => r2.country == c && r2.year == y) = 0 := by
          rw [List.countP_eq_zero]
          intro a ha hpa
          simp only [Bool.and_eq_true, beq_iff_eq] at hpa
          apply hnr
          rw [show (r.country, r.year) = (a.country, a.year) by
            rw [hpa.1, hpa.2, hr1, hr2]]
          exact List.mem_map_of_mem _ ha
        rw [ht0]
      · have hne : ¬(r.country == c && r.year == y) = true := by
          simp only [Bool.and_eq_true, beq_iff_eq]
          rintro ⟨h1, h2⟩
          apply hnr
          rw [show ((r.country, r.year) : String × Int) = (c, y) by rw [h1, h2]]
          exact hmem
        rw [List.countP_cons_of_neg
          (fun r : LongRecord => r.country == c && r.year == y) _ hne]
        exact ih hnt hmem

theorem recOf_mem_reshapeSpec {w : WideTable} {c : String} {y : Int}
    (hc : c ∈ w.countries) (hy : y ∈ w.years) :
    recOf w c y ∈ reshapeSpec w := by
  unfold reshapeSpec
  rw [mem_concatAll]
  exact ⟨w.years.map (recOf w c), List.mem_map_of_mem _ hc, List.mem_map_of_mem _ hy⟩

/-- Claim C2: a successful reshape of a wide table with unique country
names and unique year columns yields exactly `|countries| * |years|`
records, with no duplicate (country, year) pair, and for every country and
year of the table exactly one record matches, carrying the parsed value of
that cell. -/
theorem claim_C2 (w : WideTable) (out : List LongRecord)
    (hc : w.countries.Nodup) (hy : w.years.Nodup)
    (hre : reshape w = some out) :
    out.length = w.countries.length * w.years.length ∧
    (out.map (fun r => (r.country, r.year))).Nodup ∧
    ∀ c ∈ w.countries, ∀ y ∈ w.years, ∃ g, parseCell (w.cell c y) = some g ∧
      LongRecord.mk y c g ∈ out ∧
      out.countP (fun r => r.country == c && r.year == y) = 1 := by
  obtain ⟨hout, hcells⟩ := reshape_eq hre
  subst hout
  refine ⟨reshapeSpec_length w, reshapeSpec_pairs_nodup w hc hy, ?_⟩
  intro c hcm y hym
  obtain ⟨g, hg⟩ := Option.isSome_iff_exists.mp (hcells c hcm y hym)
  have hrec : recOf w c y = LongRecord.mk y c g := by
    unfold recOf
    rw [hg]
    rfl
  refine ⟨g, hg, hrec ▸ recOf_mem_reshapeSpec hcm hym, ?_⟩
  apply countP_key_eq_one (reshapeSpec_pairs_nodup w hc hy)
  have := List.mem_map_of_mem (fun r : LongRecord => (r.country, r.year))
    (recOf_mem_reshapeSpec hcm hym)
  simpa [recOf] using this

/-- Witness for C2 at a concrete two-country, two-year wide table. -/
theorem claim_C2_witness :
    ([(⟨1800, "USA", 5000⟩ : LongRecord), ⟨1825, "USA", 5000⟩, ⟨1800, "France", 3⟩,
        ⟨1825, "France", 3⟩] : List LongRecord).length = 2 * 2 ∧
    ∃ g, parseCell "5k" = some g ∧
      LongRecord.mk 1800 "USA" g ∈
        ([⟨1800, "USA", 5000⟩, ⟨1825, "USA", 5000⟩, ⟨1800, "France", 3⟩,
          ⟨1825, "France", 3⟩] : List LongRecord) ∧
      ([(⟨1800, "USA", 5000⟩ : LongRecord), ⟨1825, "USA", 5000⟩, ⟨1800, "France", 3⟩,
          ⟨1825, "France", 3⟩] : List LongRecord).countP
        (fun r => r.country == "USA" && r.year == 1800) = 1 :=
  ⟨(claim_C2 (WideTable.mk ["USA", "France"] [1800, 1825]
      (fun c _ => if c = "USA" then "5k" else "3"))
      [⟨1800, "USA", 5000⟩, ⟨1825, "USA", 5000⟩, ⟨1800, "France", 3⟩, ⟨1825, "France", 3⟩]
      (by decide) (by decide) (by decide)).1,
   (claim_C2 (WideTable.mk ["USA", "France"] [1800, 1825]
      (fun c _ => if c = "USA" then "5k" else "3"))
      [⟨1800, "USA", 5000⟩, ⟨1825, "USA", 5000⟩, ⟨1800, "France", 3⟩, ⟨1825, "France", 3⟩]
      (by decide) (by decide) (by decide)).2.2 "USA" (by decide) 1800 (by decide)⟩

theorem forall2_map_self {R : α → β → Prop} {f : α → β} :
    ∀ {l : List α}, (∀ a ∈ l, R a (f a)) → List.Forall₂ R l (l.map f) := by
  intro l
  induction l with
  | nil => intro _; exact List.Forall₂.nil
  | cons a as ih =>
      intro h
      exact List.Forall₂.cons (h a (List.mem_cons_self a as))
        (ih fun b hb => h b (List.mem_cons_of_mem a hb))

/-- Claim C8: on a reshaped table whose year columns are ascending, the
filter result is grouped by country — all records of one country
contiguous, in a block per country, countries pairwise distinct — with
years ascending within each country block (`melt` stacks one block per
country preserving row order, and the mask filters are stable). -/
theorem claim_C8 (w : WideTable) (all_countries sel : List String)
    (low high : Int) (table res : List LongRecord)
    (hcn : w.countries.Nodup)
    (hys : w.years.Pairwise (· < ·))
    (hsel : sel.Nodup) (hall : all_countries.Nodup)
    (hsub : ∀ c ∈ sel, c ∈ all_countries)
    (hcs : ∀ c ∈ w.countries, c ∈ all_countries)
    (hre : reshape w = some table)
    (hupd : update_figure table all_countries (low, high) sel = some res) :
    GroupedByCountrySorted res := by
  obtain ⟨hout, _⟩ := reshape_eq hre
  subst hout
  have htab : ∀ r ∈ reshapeSpec w, r.country ∈ all_countries := by
    intro r hr
    obtain ⟨blk, hblk, hrb⟩ := mem_concatAll.mp hr
    obtain ⟨c, hc, hcb⟩ := List.mem_map.mp hblk
    rw [← hcb] at hrb
    obtain ⟨y, _, hry⟩ := List.mem_map.mp hrb
    rw [← hry]
    exact hcs c hc
  rw [update_figure_eq _ _ _ _ _ hsel hall hsub htab] at hupd
  have hres : res = filterSpec (reshapeSpec w) low high sel :=
    (Option.some_inj.mp hupd).symm
  refine ⟨w.countries,
    w.countries.map (fun c => (w.years.map (recOf w c)).filter
      (fun r => decide (low ≤ r.year ∧ r.year ≤ high ∧ r.country ∈ sel))),
    hcn, ?_, ?_⟩
  · apply forall2_map_self
    intro c _
    constructor
    · intro r hr
      obtain ⟨y, _, hry⟩ := List.mem_map.mp (List.mem_filter.mp hr).1
      rw [← hry]
      rfl
    · have hpmap : (w.years.map (recOf w c)).Pairwise (fun x y => x.year < y.year) := by
        rw [List.pairwise_map]
        exact hys
      exact List.Pairwise.sublist (List.filter_sublist _) hpmap
  · rw [hres, filterSpec]
    unfold reshapeSpec
    rw [filter_concatAll, List.map_map]
    rfl

/-- Witness for C8 at a concrete reshaped table and Selection. -/
theorem claim_C8_witness :
    GroupedByCountrySorted
      [⟨1800, "USA", 5000⟩, ⟨1825, "USA", 5000⟩, ⟨1800, "France", 3⟩,
       ⟨1825, "France", 3⟩] :=
  claim_C8 (WideTable.mk ["USA", "France"] [1800, 1825]
      (fun c _ => if c = "USA" then "5k" else "3"))
    ["USA", "France"] ["USA", "France"] 1800 1825
    [⟨1800, "USA", 5000⟩, ⟨1825, "USA", 5000⟩, ⟨1800, "France", 3⟩, ⟨1825, "France", 3⟩]
    [⟨1800, "USA", 5000⟩, ⟨1825, "USA", 5000⟩, ⟨1800, "France", 3⟩, ⟨1825, "France", 3⟩]
    (by decide) (by decide) (by decide) (by decide) (by decide) (by decide)
    (by decide) (by decide)

theorem mem_intRange {low high y : Int} :
    y ∈ intRange low high ↔ low ≤ y ∧ y ≤ high := by
  simp only [intRange, List.mem_map, List.mem_range]
  constructor
  · rintro ⟨i, hi, rfl⟩
    omega
  · rintro ⟨h1, h2⟩
    exact ⟨(y - low).toNat, by omega, by omega⟩

/-- Claim C9: over a contiguous year domain `[low, high]` with
`low ≤ high`, the tick-mark derivation returns exactly the years in
`[low, high]` divisible by 25; on [1800, 1900] that is
[1800, 1825, 1850, 1875, 1900], and on [1801, 1824] the empty sequence (a
valid result, not an error). -/
theorem claim_C9 :
    (∀ low high y : Int, low ≤ high →
      (y ∈ mark_years (intRange low high) ↔ low ≤ y ∧ y ≤ high ∧ y % 25 = 0)) ∧
    mark_years (intRange 1800 1900) = [1800, 1825, 1850, 1875, 1900] ∧
    mark_years (intRange 1801 1824) = [] := by
  refine ⟨?_, by decide, by decide⟩
  intro low high y _
  unfold mark_years
  rw [List.mem_filter, mem_intRange]
  simp [and_assoc]

/-- Witness for C9: the characterisation instantiated at 1825 within
[1800, 1900]. -/
theorem claim_C9_witness :
    1825 ∈ mark_years (intRange 1800 1900) ↔
      (1800 : Int) ≤ 1825 ∧ (1825 : Int) ≤ 1900 ∧ (1825 : Int) % 25 = 0 :=
  claim_C9.1 1800 1900 1825 (by decide)

theorem removeLoopHeap_frames_other (r : Nat) :
    ∀ (cs : List String) (h h2 : PyHeap), removeLoopHeap r h cs = some h2 →
      h2.frames = h.frames ∧
        ∀ i, i ≠ r → h2.strLists.getD i [] = h.strLists.getD i [] := by
  intro cs
  induction cs with
  | nil =>
      intro h h2 he
      cases Option.some_inj.mp he
      exact ⟨rfl, fun _ _ => rfl⟩
  | cons c rest ih =>
      intro h h2 he
      unfold removeLoopHeap at he
      cases hp : pyRemove (h.strLists.getD r []) c with
      | none => rw [hp] at he; simp at he
      | some l =>
          rw [hp] at he
          simp only [Option.some_bind] at he
          obtain ⟨h1f, h1s⟩ := ih _ _ he
          refine ⟨h1f, fun i hi => ?_⟩
          rw [h1s i hi]
          show (h.strLists.set r l).getD i [] = h.strLists.getD i []
          rw [List.getD_eq_getElem?_getD, List.getD_eq_getElem?_getD,
            List.getElem?_set_ne (fun hri => hi hri.symm)]

/-- Claim C10: a run of the callback leaves the process-wide state
unchanged — the `df_pivot` frame and the `all_countries` list object read
back equal to their values before the call; the exclusion list is built on
a fresh copy, never on the shared list. -/
theorem claim_C10 (h h2 : PyHeap) (dfRef allRef : Nat) (year_range : Int × Int)
    (countries : List String) (res : List LongRecord)
    (hlt : allRef < h.strLists.length)
    (hrun : update_figure_heap h dfRef allRef year_range countries = some (h2, res)) :
    h2.frames.getD dfRef [] = h.frames.getD dfRef [] ∧
      h2.strLists.getD allRef [] = h.strLists.getD allRef [] := by
  simp only [update_figure_heap] at hrun
  cases hloop : removeLoopHeap h.strLists.length
      { h with strLists := h.strLists ++ [h.strLists.getD allRef []] } countries with
  | none => rw [hloop] at hrun; simp at hrun
  | some h3 =>
      rw [hloop] at hrun
      simp only [Option.map_some'] at hrun
      have hpair := Option.some_inj.mp hrun
      have hh2 : h3 = h2 := congrArg Prod.fst hpair
      obtain ⟨hf, hs⟩ := removeLoopHeap_frames_other _ _ _ _ hloop
      constructor
      · rw [← hh2, hf]
      · rw [← hh2, hs allRef (Nat.ne_of_lt hlt)]
        show (h.strLists ++ [h.strLists.getD allRef []]).getD allRef [] = _
        rw [List.getD_eq_getElem?_getD, List.getD_eq_getElem?_getD,
          List.getElem?_append_left hlt]

/-- Witness for C10 at a concrete heap and input. -/
theorem claim_C10_witness :
    (PyHeap.mk [["USA", "France"], ["USA"]] [[⟨1800, "USA", 5⟩]]).frames.getD 0 [] =
        (PyHeap.mk [["USA", "France"]] [[⟨1800, "USA", 5⟩]]).frames.getD 0 [] ∧
      (PyHeap.mk [["USA", "France"], ["USA"]] [[⟨1800, "USA", 5⟩]]).strLists.getD 0 [] =
        (PyHeap.mk [["USA", "France"]] [[⟨1800, "USA", 5⟩]]).strLists.getD 0 [] :=
  claim_C10 (PyHeap.mk [["USA", "France"]] [[⟨1800, "USA", 5⟩]])
    (PyHeap.mk [["USA", "France"], ["USA"]] [[⟨1800, "USA", 5⟩]])
    0 0 (1800, 1900) ["France"] [] (by decide) (by decide)
